import Mathlib

/-!
Verification of the session and conversation-state manager of the Lingo AI
tutoring backend (src/app.py), via a shallow embedding in Lean 4.

Conventions of the embedding:
  * Python lists become Lean `List`s; Python dicts (the process-wide
    `user_sessions` registry, keys unique) become association lists
    `List (String × SessionData)`; dict insertion appends at the tail,
    matching insertion order.
  * Timestamps (`time.time()`) are modelled as `Int` seconds.
  * Network calls (Groq completion, Deepgram speech) are external
    collaborators: their outcome is passed in as an explicit argument
    (`Except String String` for the completion call, `Option String` for
    the speech call), and a Python exception raised by the collaborator is
    the `Except.error` case.
  * `print` output is modelled as an explicit list of printed lines; a
    Python function with no `return` statement returns `None`, modelled as
    a component that is always `none`.
  * Python `str.strip()` / `str.split()` use the whitespace characters
    space, tab, newline, carriage return, vertical tab and form feed; the
    embedding uses the same set (`pyIsWs`).
-/

/-- Character constants used by the embedding: the apostrophe (39) and the
backquote (96), written via their code points. -/
def apos : String := (Char.ofNat 39).toString

def backquote : Char := Char.ofNat 96

/-- One record of the bounded conversation log: the dict
`{'user': user_message, 'ai': ai_response}` stored in `SimpleAITutor.memory`. -/
structure Exchange where
  user : String
  ai : String
  deriving DecidableEq, Repr

/-- State of one `SimpleAITutor` object: configured language and proficiency
plus the bounded conversation memory.  The `groq_api_key` attribute is ambient
environment configuration (the constructor raises when it is absent); the
embedding assumes the key is present, since every reachable tutor object has
one. -/
structure Tutor where
  language : String
  proficiency : String
  memory : List Exchange
  deriving DecidableEq, Repr

/-- The last `n` elements of a list, in their original order (Python `l[-n:]`),
written as a drop from the front. -/
def lastN (n : Nat) (l : List α) : List α := l.drop (l.length - n)

/-- Embeds `SimpleAITutor.add_to_memory`: append the new exchange at the tail,
then, if the length exceeds 10, keep only the last 10 (`self.memory[-10:]`). -/
def add_to_memory (memory : List Exchange) (user_message ai_response : String) :
    List Exchange :=
  let m := memory ++ [⟨user_message, ai_response⟩]
  if m.length > 10 then m.drop (m.length - 10) else m

/-- Folding a whole sequence of appends into an initially empty memory, the
way repeated turns on one session do. -/
def appendAll (rs : List (String × String)) : List Exchange :=
  rs.foldl (fun m r => add_to_memory m r.1 r.2) []

/-- Whitespace set of Python `str.strip()` and `str.split()` with no
arguments: space, tab, newline, carriage return, vertical tab, form feed. -/
def pyIsWs (c : Char) : Bool :=
  c = ' ' || c = '\t' || c = '\n' || c = '\r' || c = Char.ofNat 11 || c = Char.ofNat 12

/-- Python `str.strip()` on a character list: drop whitespace from both ends. -/
def pyStripL (l : List Char) : List Char :=
  ((l.dropWhile pyIsWs).reverse.dropWhile pyIsWs).reverse

/-- Python `str.strip()` on a string. -/
def pyStrip (s : String) : String := ⟨pyStripL s.data⟩

/-- Rendering of one stored exchange inside the context block of
`get_memory_context`: the two lines the loop body appends. -/
def renderExchange (e : Exchange) : String :=
  "\nUser: " ++ e.user ++ "\nAI: " ++ e.ai

/-- Embeds `SimpleAITutor.get_memory_context`: the sentinel sentence when the
memory is empty, otherwise the concatenated rendering of the last three
exchanges (`self.memory[-3:]`), oldest first. -/
def get_memory_context (memory : List Exchange) : String :=
  if memory = [] then "This is the start of the conversation."
  else String.join ((memory.drop (memory.length - 3)).map renderExchange)

/-- Embeds `SimpleAITutor.get_system_prompt`: the instruction string built
from language, proficiency and the recent-context block. -/
def get_system_prompt (t : Tutor) : String :=
  "You are Lingo AI, a friendly AI language tutor for " ++ t.language ++ " at "
    ++ t.proficiency ++ " level.\n\nYour role:\n1. Help users learn "
    ++ t.language
    ++ "\n2. Correct grammar and vocabulary errors gently\n3. Provide explanations for language rules\n4. Have natural conversations\n5. Adapt to the user"
    ++ apos ++ "s proficiency level (" ++ t.proficiency
    ++ ")\n\nGuidelines:\n- Keep responses concise (max 3-4 sentences)\n- Use simple language for beginners, more complex for advanced\n- Always provide translations when introducing new words\n- Give examples to illustrate points\n- Be encouraging and positive\n\nCurrent conversation context: "
    ++ get_memory_context t.memory

/-- The fallback reply produced by the `except` branch of
`SimpleAITutor.get_response`, embedding the stringified exception. -/
def fallback_reply (e : String) : String :=
  "I" ++ apos ++ "m having trouble responding. Please try again. (Error: " ++ e ++ ")"

/-- Embeds `SimpleAITutor.get_response`.  The body assembles the system
prompt (`get_system_prompt`) and the user message and hands them to the Groq
chat-completion call; that external call is modelled by the `api_result`
argument, whose `Except.error` case is a raised exception (network error,
bad payload, missing SDK) carrying its message.  On success the raw reply is
appended to memory via `add_to_memory` and the stripped reply is returned; on
failure the tutor state is left as it was and the fallback string is
returned. -/
def get_response (t : Tutor) (user_message : String)
    (api_result : Except String String) : Tutor × String :=
  match api_result with
  | Except.ok ai_response =>
      ({ t with memory := add_to_memory t.memory user_message ai_response },
        pyStrip ai_response)
  | Except.error e => (t, fallback_reply e)

/-- State of one `SimpleTTS` object: its configured language.  The `api_key`
attribute is ambient environment configuration shared by every instance; its
presence is modelled as an explicit flag where it matters (the voice branch
of `chat`). -/
structure TTS where
  language : String
  deriving DecidableEq, Repr

/-- One value of the `user_sessions` dict: the per-session dict with keys
`ai_tutor`, `tts` and `created_at`. -/
structure SessionData where
  ai_tutor : Tutor
  tts : TTS
  created_at : Int
  deriving DecidableEq, Repr

/-- The process-wide `user_sessions` dict: an association list keyed by
session identifier, keys unique, insertion at the tail (dicts keep insertion
order). -/
abbrev Store := List (String × SessionData)

/-- Dict key lookup `user_sessions[session_id]`; the membership test
`session_id in user_sessions` is `(findSession store session_id).isSome`. -/
def findSession (store : Store) (session_id : String) : Option SessionData :=
  (store.find? (fun p => p.1 == session_id)).map Prod.snd

/-- Embeds `get_or_create_session`: construct a fresh entry (empty memory,
the given language and proficiency, current timestamp `now`) only when the
identifier is unknown, then return the stored entry. -/
def get_or_create_session (store : Store) (session_id language proficiency : String)
    (now : Int) : Store × SessionData :=
  match findSession store session_id with
  | some sd => (store, sd)
  | none =>
      let sd : SessionData :=
        { ai_tutor := { language := language, proficiency := proficiency, memory := [] },
          tts := { language := language },
          created_at := now }
      (store ++ [(session_id, sd)], sd)

/-- Embeds `SimpleAITutor.clear_memory`: reset the conversation log, keeping
language and proficiency. -/
def clear_memory (t : Tutor) : Tutor := { t with memory := [] }

/-- Embeds the `/api/session/reset` handler `reset_session`: clear the memory
of the named session in place when it exists, otherwise report the session as
not found (HTTP 404) and change nothing. -/
def reset_session (store : Store) (session_id : String) :
    Store × Except String String :=
  match findSession store session_id with
  | some _ =>
      (store.map (fun p =>
         if p.1 = session_id then (p.1, { p.2 with ai_tutor := clear_memory p.2.ai_tutor })
         else p),
       Except.ok "Conversation reset successfully")
  | none => (store, Except.error "Session not found")

/-- Result of one run of `cleanup_old_sessions`: the surviving sessions, the
lines printed to stdout, and the Python return value — the function body has
no `return` statement, so the caller always receives `None`, modelled as an
`Option Nat` removed-count that is never produced. -/
structure SweepOutcome where
  sessions : Store
  printed : List String
  retval : Option Nat
  deriving DecidableEq, Repr

/-- Embeds `cleanup_old_sessions` run at time `now`: collect the keys of the
entries older than 7200 seconds, delete those keys from the dict, and print a
summary line only when at least one session was removed. -/
def cleanup_old_sessions (store : Store) (now : Int) : SweepOutcome :=
  let old_sessions :=
    (store.filter (fun p => decide (now - p.2.created_at > 7200))).map Prod.fst
  { sessions := store.filter (fun p => !old_sessions.contains p.1),
    printed :=
      if old_sessions = [] then []
      else ["Cleaned up " ++ toString old_sessions.length ++ " old sessions"],
    retval := none }

/-- Response payload of a successful `/api/chat` call. -/
structure ChatResponse where
  session_id : String
  bot_response : String
  audio_data : Option String
  language : String
  proficiency : String
  deriving DecidableEq, Repr

/-- Outcome of the `/api/chat` handler: a JSON payload with HTTP 200, or an
error message with its HTTP status code. -/
inductive ChatOutcome where
  | ok (resp : ChatResponse)
  | err (msg : String) (code : Nat)
  deriving DecidableEq, Repr

/-- Embeds the `/api/chat` handler `chat`.  Request fields arrive as
`Option`s (absent JSON keys); `fresh_id` is the `uuid.uuid4()` value drawn
when no usable session id was supplied; `now` is the `time.time()` reading;
`api_result` is the outcome of the Groq completion call made inside
`get_response`; `tts_key_present` says whether `DEEPGRAM_API_KEY` is set, and
`tts_result` is the value of the `text_to_speech` network call when it is
made. -/
def chat (store : Store) (message : Option String) (session_id : Option String)
    (language proficiency : Option String) (use_voice : Option Bool)
    (fresh_id : String) (now : Int) (api_result : Except String String)
    (tts_key_present : Bool) (tts_result : Option String) :
    Store × ChatOutcome :=
  let user_message := pyStrip (message.getD "")
  let language := language.getD "English"
  let proficiency := proficiency.getD "beginner"
  let use_voice := use_voice.getD false
  if user_message = "" then (store, ChatOutcome.err "No message provided" 400)
  else
    let sid :=
      match session_id with
      | none => fresh_id
      | some s => if s = "" then fresh_id else s
    let res := get_or_create_session store sid language proficiency now
    let tr := get_response res.2.ai_tutor user_message api_result
    let store2 := res.1.map (fun p =>
      if p.1 = sid then (p.1, { p.2 with ai_tutor := tr.1 }) else p)
    let audio_data := if use_voice && tts_key_present then tts_result else none
    (store2, ChatOutcome.ok ⟨sid, tr.2, audio_data, language, proficiency⟩)

/-- Scan for the first occurrence of the delimiter `d`: returns the
characters before it (the lazy `(.*?)` content group, which may not cross a
newline and never reaches past a `d`) and the suffix just after the
delimiter, or `none` when no `d` occurs before a newline or the end. -/
def findDelim (d : Char) : List Char → Option (List Char × List Char)
  | [] => none
  | c :: t =>
      if c = d then some ([], t)
      else if c = '\n' then none
      else
        match findDelim d t with
        | none => none
        | some (content, rest) => some (c :: content, rest)

/-- The greedy `{1,2}` closing delimiter of the emphasis patterns: after the
first closing `d` found by `findDelim`, a directly adjacent second `d` is
also consumed. -/
def closerDrop (d : Char) (l : List Char) : List Char :=
  match l with
  | c :: t => if c = d then t else l
  | [] => l

/-- One pass of the emphasis substitution of `SimpleTTS.clean_text`
(`\*{1,2}(.*?)\*{1,2}` replaced by the group, and the same pattern with
underscores), as a fuelled left-to-right scan.  The dot does not match a
newline, both `{1,2}` counts are greedy (opener preferring two delimiters,
falling back to one) and the content group is lazy, stopping at the first
delimiter.  Each step consumes at least one character, so fuel equal to the
length of the text suffices. -/
def subEmphF (d : Char) : Nat → List Char → List Char
  | 0, l => l
  | _ + 1, [] => []
  | n + 1, c :: t =>
      if c = d then
        match t with
        | [] => [c]
        | c2 :: t2 =>
            if c2 = d then
              match findDelim d t2 with
              | some (content, u) => content ++ subEmphF d n (closerDrop d u)
              | none => subEmphF d n t2
            else
              match findDelim d t with
              | some (content, u) => content ++ subEmphF d n (closerDrop d u)
              | none => c :: subEmphF d n t
      else c :: subEmphF d n t

/-- Emphasis substitution pass with enough fuel for the whole text. -/
def subEmph (d : Char) (l : List Char) : List Char := subEmphF d l.length l

/-- Scan for the first adjacency of a closing square bracket directly
followed by an opening parenthesis over non-newline content characters (the
lazy front part of the link pattern); returns the suffix after the
adjacency. -/
def findBracketParen : List Char → Option (List Char)
  | ']' :: '(' :: t => some t
  | c :: t => if c = '\n' then none else findBracketParen t
  | [] => none

/-- One pass of the link substitution of `SimpleTTS.clean_text`
(`\[.*?\]\(.*?\)` replaced by nothing).  Both lazy groups refuse newlines.
When the URL part has no closing parenthesis before a newline or the end,
no later bracket-parenthesis adjacency can complete a match either — the
closing parenthesis it would need would already have ended the earlier
attempt — so this scan without backtracking agrees with the regex engine. -/
def subLinkF : Nat → List Char → List Char
  | 0, l => l
  | _ + 1, [] => []
  | n + 1, c :: t =>
      if c = '[' then
        match findBracketParen t with
        | some u =>
            match findDelim ')' u with
            | some (_, rest) => subLinkF n rest
            | none => c :: subLinkF n t
        | none => c :: subLinkF n t
      else c :: subLinkF n t

/-- Link substitution pass with enough fuel for the whole text. -/
def subLink (l : List Char) : List Char := subLinkF l.length l

/-- One pass of the inline-code substitution of `SimpleTTS.clean_text`: each
pair of backquotes and the non-newline content between them is deleted. -/
def subCodeF : Nat → List Char → List Char
  | 0, l => l
  | _ + 1, [] => []
  | n + 1, c :: t =>
      if c = backquote then
        match findDelim backquote t with
        | some (_, u) => subCodeF n u
        | none => c :: subCodeF n t
      else c :: subCodeF n t

/-- Inline-code substitution pass with enough fuel for the whole text. -/
def subCode (l : List Char) : List Char := subCodeF l.length l

/-- Python `str.split()` with an accumulator carrying the current word in
reverse: splits on runs of whitespace, producing no empty words. -/
def splitAux : List Char → List Char → List (List Char)
  | [], acc => if acc = [] then [] else [acc.reverse]
  | c :: t, acc =>
      if pyIsWs c then
        if acc = [] then splitAux t [] else acc.reverse :: splitAux t []
      else splitAux t (c :: acc)

/-- Python `str.split()` with no arguments. -/
def pySplit (l : List Char) : List (List Char) := splitAux l []

/-- Python `' '.join(words)`: single spaces between words. -/
def joinWs : List (List Char) → List Char
  | [] => []
  | [w] => w
  | w :: v :: ws => w ++ ' ' :: joinWs (v :: ws)

/-- The whitespace collapse of `clean_text`: `' '.join(text.split())`. -/
def collapseWs (l : List Char) : List Char := joinWs (pySplit l)

/-- A word as produced by Python `str.split()`: nonempty and free of
whitespace. -/
def GoodWord (w : List Char) : Prop := w ≠ [] ∧ ∀ c ∈ w, pyIsWs c = false

/-- A word list as produced by Python `str.split()`. -/
def GoodWords (ws : List (List Char)) : Prop := ∀ w ∈ ws, GoodWord w

/-- The length limit of `clean_text`: texts over 500 characters keep their
first 497 characters followed by three dots. -/
def truncate500 (l : List Char) : List Char :=
  if l.length > 500 then l.take 497 ++ ['.', '.', '.'] else l

/-- Embeds `SimpleTTS.clean_text` on a character list: the two emphasis
substitutions, the link substitution, the inline-code substitution, the
whitespace collapse, the length limit, and the final strip. -/
def cleanTextL (text : List Char) : List Char :=
  let c1 := subEmph '*' text
  let c2 := subEmph '_' c1
  let c3 := subLink c2
  let c4 := subCode c3
  let c5 := collapseWs c4
  let c6 := truncate500 c5
  pyStripL c6

/-- Embeds `SimpleTTS.clean_text`. -/
def clean_text (s : String) : String := ⟨cleanTextL s.data⟩

/-- Sample tutor used by concrete witnesses. -/
def sampleTutor : Tutor :=
  { language := "Spanish", proficiency := "advanced",
    memory := [⟨"Hola", "Hola! Como estas?"⟩] }

/-- Sample session entry created at time 100, used by concrete witnesses. -/
def sampleA : SessionData :=
  { ai_tutor := sampleTutor, tts := { language := "Spanish" }, created_at := 100 }

/-- Sample session entry created at time 9000, used by concrete witnesses. -/
def sampleB : SessionData :=
  { ai_tutor := { language := "French", proficiency := "beginner", memory := [] },
    tts := { language := "French" }, created_at := 9000 }

/-- Sample two-session store used by concrete witnesses. -/
def sampleStore : Store := [("a", sampleA), ("b", sampleB)]

/-!
Theorems.  Helper lemmas come first, then one theorem (plus witness or
counterexample where applicable) per claim.
-/

theorem lastN_eq_reverse_take (n : Nat) (l : List α) :
    lastN n l = (l.reverse.take n).reverse := by
  rw [List.take_reverse, List.reverse_reverse, lastN]

theorem add_to_memory_eq_lastN (memory : List Exchange) (u a : String) :
    add_to_memory memory u a = lastN 10 (memory ++ [⟨u, a⟩]) := by
  simp only [add_to_memory, lastN]
  split
  · rfl
  · next h =>
    have h0 : (memory ++ [(⟨u, a⟩ : Exchange)]).length - 10 = 0 := by omega
    rw [h0, List.drop_zero]

theorem lastN_append_lastN (n : Nat) (A T : List α) :
    lastN n (lastN n A ++ T) = lastN n (A ++ T) := by
  rw [lastN_eq_reverse_take, lastN_eq_reverse_take, lastN_eq_reverse_take]
  rw [List.reverse_append, List.reverse_reverse, List.reverse_append]
  rw [List.take_append_eq_append_take, List.take_append_eq_append_take]
  rw [List.take_take]
  have hmin : min (n - T.reverse.length) n = n - T.reverse.length := by omega
  rw [hmin]

theorem length_lastN (n : Nat) (l : List α) : (lastN n l).length = min l.length n := by
  simp only [lastN, List.length_drop]
  omega

theorem appendAll_foldl (rs : List (String × String)) (m : List Exchange) :
    rs.foldl (fun m r => add_to_memory m r.1 r.2) (lastN 10 m)
      = lastN 10 (m ++ rs.map (fun r => ⟨r.1, r.2⟩)) := by
  induction rs generalizing m with
  | nil => simp [lastN]
  | cons r t ih =>
    have step : add_to_memory (lastN 10 m) r.1 r.2 = lastN 10 (m ++ [⟨r.1, r.2⟩]) := by
      rw [add_to_memory_eq_lastN, lastN_append_lastN]
    simp only [List.foldl_cons, step, ih (m ++ [⟨r.1, r.2⟩]), List.map_cons]
    simp

/-- C1: For every sequence of N calls to `add_to_memory` starting from an
empty memory, the stored length afterwards is `min N 10`, and the retained
records are exactly the last `min N 10` appended records in their original
order (the suffix obtained by dropping all but the final 10).  The operation
is a total function, so every append succeeds. -/
theorem add_to_memory_sliding_window (rs : List (String × String)) :
    (appendAll rs).length = min rs.length 10 ∧
      appendAll rs = (rs.map (fun r => (⟨r.1, r.2⟩ : Exchange))).drop (rs.length - 10) := by
  have h : appendAll rs = lastN 10 (rs.map (fun r => (⟨r.1, r.2⟩ : Exchange))) := by
    have h0 : ([] : List Exchange) = lastN 10 [] := by simp [lastN]
    rw [appendAll, h0, appendAll_foldl]
    simp
  constructor
  · rw [h, length_lastN]
    simp
  · rw [h, lastN, List.length_map]

/-- C7: `get_memory_context` renders exactly the last `min length 3` stored
records — never more than three — as a suffix of the memory, hence the most
recent records in their original chronological order; on an empty memory it
returns the fixed empty-conversation sentence instead of a transcript. -/
theorem get_memory_context_last_three (memory : List Exchange) :
    (lastN 3 memory).length = min memory.length 3 ∧
    (lastN 3 memory).length ≤ 3 ∧
    lastN 3 memory <:+ memory ∧
    get_memory_context memory =
      (if memory = [] then "This is the start of the conversation."
       else String.join ((lastN 3 memory).map renderExchange)) := by
  refine ⟨length_lastN 3 memory, ?_, ?_, ?_⟩
  · rw [length_lastN]
    omega
  · exact List.drop_suffix _ _
  · rfl

/-- C10: when the completion call raises, `get_response` returns the tutor
state unchanged together with the fallback reply, so the error branch is
atomic with respect to session state; the memory append happens only in the
success branch, where it adds exactly the new exchange. -/
theorem get_response_error_atomic (t : Tutor) (m e r : String) :
    get_response t m (Except.error e) = (t, fallback_reply e) ∧
    (get_response t m (Except.ok r)).1.memory = add_to_memory t.memory m r := by
  exact ⟨rfl, rfl⟩

/-- C2 counterexample: on a provider failure the turn does return the
fallback string embedding the failure reason, but the conversation memory is
NOT written: starting from an empty memory it is still empty (length 0)
afterwards, not a one-record log as a normal reply would leave. -/
theorem get_response_fallback_unwritten_cex :
    (get_response ⟨"English", "beginner", []⟩ "hola" (Except.error "timeout")).2
        = fallback_reply "timeout" ∧
    ((get_response ⟨"English", "beginner", []⟩ "hola"
        (Except.error "timeout")).1.memory).length = 0 := by
  exact ⟨rfl, rfl⟩

/-- C2 (amended): when the completion call fails, `get_response` does not
raise: it returns the fallback reply string embedding the failure reason, but
— contrary to the original claim — the fallback is NOT written to the
conversation memory, which is left exactly as it was. -/
theorem get_response_fallback_reply (t : Tutor) (m e : String) :
    (get_response t m (Except.error e)).2
        = "I" ++ apos ++ "m having trouble responding. Please try again. (Error: "
            ++ e ++ ")" ∧
    (get_response t m (Except.error e)).1.memory = t.memory := by
  exact ⟨rfl, rfl⟩

theorem findSession_map_clear (store : Store) (sid : String) :
    findSession (store.map (fun p => if p.1 = sid
        then (p.1, { p.2 with ai_tutor := clear_memory p.2.ai_tutor }) else p)) sid
      = (findSession store sid).map
          (fun sd => { sd with ai_tutor := clear_memory sd.ai_tutor }) := by
  induction store with
  | nil => rfl
  | cons q t ih =>
    by_cases h : q.1 = sid
    · simp [findSession, h]
    · have hb : (q.1 == sid) = false := by simp [h]
      simp only [List.map_cons, findSession, if_neg h]
      rw [List.find?_cons_of_neg _ (by simp [hb]),
        List.find?_cons_of_neg _ (by simp [hb])]
      exact ih

/-- C3: `get_or_create_session` is idempotent for a known identifier: when
the identifier is already in the store, the call returns the stored entry
with its accumulated memory, leaves the store unchanged, and ignores the
language and proficiency arguments — the configuration given at creation
time is kept. -/
theorem get_or_create_session_idempotent (store : Store) (session_id : String)
    (sd : SessionData) (language proficiency : String) (now : Int)
    (h : findSession store session_id = some sd) :
    get_or_create_session store session_id language proficiency now = (store, sd) := by
  simp [get_or_create_session, h]

/-- Witness for C3: looking up the sample session under different language
and proficiency arguments returns the original Spanish-advanced entry and
leaves the store unchanged. -/
theorem get_or_create_session_idempotent_witness :
    get_or_create_session sampleStore "a" "German" "beginner" 555
      = (sampleStore, sampleA) :=
  get_or_create_session_idempotent sampleStore "a" sampleA "German" "beginner" 555
    (by decide)

/-- C6: for a known identifier `reset_session` empties exactly that session
conversation memory while keeping its identifier, language and proficiency
unchanged and leaving every other entry untouched; for an unknown identifier
it reports the session as not found and changes nothing. -/
theorem reset_session_spec (store : Store) (session_id : String) :
    (∀ sd, findSession store session_id = some sd →
      (reset_session store session_id).2 = Except.ok "Conversation reset successfully" ∧
      findSession (reset_session store session_id).1 session_id
          = some { sd with ai_tutor := clear_memory sd.ai_tutor } ∧
      (clear_memory sd.ai_tutor).memory = [] ∧
      (clear_memory sd.ai_tutor).language = sd.ai_tutor.language ∧
      (clear_memory sd.ai_tutor).proficiency = sd.ai_tutor.proficiency ∧
      ∀ p ∈ store, p.1 ≠ session_id → p ∈ (reset_session store session_id).1) ∧
    (findSession store session_id = none →
      reset_session store session_id = (store, Except.error "Session not found")) := by
  constructor
  · intro sd h
    have h1 : reset_session store session_id
        = (store.map (fun p => if p.1 = session_id
              then (p.1, { p.2 with ai_tutor := clear_memory p.2.ai_tutor }) else p),
           Except.ok "Conversation reset successfully") := by
      simp [reset_session, h]
    refine ⟨by rw [h1], ?_, rfl, rfl, rfl, ?_⟩
    · rw [h1]
      show findSession _ session_id = _
      rw [findSession_map_clear store session_id, h]
      rfl
    · intro p hp hne
      rw [h1]
      have hfix : (if p.1 = session_id
          then (p.1, { p.2 with ai_tutor := clear_memory p.2.ai_tutor }) else p) = p :=
        if_neg hne
      exact hfix ▸ List.mem_map_of_mem _ hp
  · intro h
    simp [reset_session, h]

/-- Witness for C6: resetting the sample session empties its memory and
reports success, and resetting an unknown identifier returns the store
unchanged with the not-found error. -/
theorem reset_session_spec_witness :
    findSession (reset_session sampleStore "a").1 "a"
        = some { sampleA with ai_tutor := clear_memory sampleA.ai_tutor } ∧
    reset_session sampleStore "zzz" = (sampleStore, Except.error "Session not found") :=
  ⟨((reset_session_spec sampleStore "a").1 sampleA (by decide)).2.1,
    (reset_session_spec sampleStore "zzz").2 (by decide)⟩

/-- C5: a chat turn whose message is empty after stripping whitespace is
rejected with the empty-message error (HTTP 400) before anything else
happens: the store — hence every session conversation memory — is unchanged,
and the outcome is the same whatever the completion provider would have
answered, for it is never called. -/
theorem chat_empty_message_rejected (store : Store) (message : Option String)
    (session_id : Option String) (language proficiency : Option String)
    (use_voice : Option Bool) (fresh_id : String) (now : Int)
    (api_result : Except String String) (tts_key_present : Bool)
    (tts_result : Option String)
    (h : pyStrip (message.getD "") = "") :
    chat store message session_id language proficiency use_voice fresh_id now
        api_result tts_key_present tts_result
      = (store, ChatOutcome.err "No message provided" 400) := by
  simp [chat, h]

/-- Witness for C5: a whitespace-only message is rejected with the
empty-message error whatever the provider result would have been, leaving
the sample store unchanged. -/
theorem chat_empty_message_rejected_witness :
    chat sampleStore (some "  \t ") none none none none "fresh" 777
        (Except.ok "hi") true (some "audio")
      = (sampleStore, ChatOutcome.err "No message provided" 400) :=
  chat_empty_message_rejected sampleStore (some "  \t ") none none none none
    "fresh" 777 (Except.ok "hi") true (some "audio") (by decide)

theorem cleanup_keeps_iff (store : Store) (now : Int)
    (h : (store.map Prod.fst).Nodup) :
    (cleanup_old_sessions store now).sessions
      = store.filter (fun p => decide (now - p.2.created_at ≤ 7200)) := by
  simp only [cleanup_old_sessions]
  refine List.filter_congr ?_
  intro p hp
  have hmem : p.1 ∈ (store.filter
        (fun q => decide (now - q.2.created_at > 7200))).map Prod.fst
      ↔ 7200 < now - p.2.created_at := by
    constructor
    · intro hin
      obtain ⟨q, hq, hq1⟩ := List.mem_map.mp hin
      obtain ⟨hqs, hqc⟩ := List.mem_filter.mp hq
      have hqp : q = p := List.inj_on_of_nodup_map h hqs hp hq1
      have := of_decide_eq_true hqc
      rwa [hqp] at this
    · intro hgt
      exact List.mem_map.mpr ⟨p, List.mem_filter.mpr ⟨hp, by simpa using hgt⟩, rfl⟩
  have hc : ((store.filter
        (fun q => decide (now - q.2.created_at > 7200))).map Prod.fst).contains p.1
      = decide (7200 < now - p.2.created_at) := by
    rw [List.contains, List.elem_eq_mem]
    exact decide_eq_decide.mpr hmem
  rw [hc, ← decide_not]
  exact decide_eq_decide.mpr not_lt

theorem cleanup_idem (store : Store) (now : Int)
    (h : (store.map Prod.fst).Nodup) :
    cleanup_old_sessions (cleanup_old_sessions store now).sessions now
      = { sessions := (cleanup_old_sessions store now).sessions,
          printed := [], retval := none } := by
  rw [cleanup_keeps_iff store now h]
  have hold : ((store.filter (fun p => decide (now - p.2.created_at ≤ 7200))).filter
        (fun p => decide (now - p.2.created_at > 7200))).map Prod.fst = [] := by
    rw [List.filter_filter]
    have hnil : store.filter
        (fun a => decide (now - a.2.created_at > 7200)
          && decide (now - a.2.created_at ≤ 7200)) = [] := by
      refine List.filter_eq_nil_iff.mpr ?_
      intro a _
      simp only [Bool.and_eq_true, decide_eq_true_eq]
      omega
    rw [hnil, List.map_nil]
  simp only [cleanup_old_sessions, hold]
  simp

/-- C4: a sweep at time `now` removes exactly the entries strictly older
than 7200 seconds and keeps every other entry untouched, and a second sweep
immediately after (same clock reading) removes nothing and prints nothing. -/
theorem cleanup_old_sessions_removes_exactly (store : Store) (now : Int)
    (h : (store.map Prod.fst).Nodup) :
    (cleanup_old_sessions store now).sessions
        = store.filter (fun p => decide (now - p.2.created_at ≤ 7200)) ∧
    (∀ p ∈ store, now - p.2.created_at ≤ 7200 →
        p ∈ (cleanup_old_sessions store now).sessions) ∧
    (∀ p ∈ store, 7200 < now - p.2.created_at →
        p ∉ (cleanup_old_sessions store now).sessions) ∧
    cleanup_old_sessions (cleanup_old_sessions store now).sessions now
        = { sessions := (cleanup_old_sessions store now).sessions,
            printed := [], retval := none } := by
  refine ⟨cleanup_keeps_iff store now h, ?_, ?_, cleanup_idem store now h⟩
  · intro p hp hle
    rw [cleanup_keeps_iff store now h]
    exact List.mem_filter.mpr ⟨hp, by simpa using hle⟩
  · intro p hp hgt hrem
    rw [cleanup_keeps_iff store now h] at hrem
    have := (List.mem_filter.mp hrem).2
    simp only [decide_eq_true_eq] at this
    omega

/-- Witness for C4: on the sample store at time 10000 the sweep removes the
session created at time 100 (age 9900), keeps the one created at 9000, and a
second immediate sweep changes nothing and prints nothing. -/
theorem cleanup_old_sessions_removes_exactly_witness :
    (cleanup_old_sessions sampleStore 10000).sessions
        = sampleStore.filter (fun p => decide ((10000 : Int) - p.2.created_at ≤ 7200)) ∧
    cleanup_old_sessions (cleanup_old_sessions sampleStore 10000).sessions 10000
        = { sessions := (cleanup_old_sessions sampleStore 10000).sessions,
            printed := [], retval := none } :=
  ⟨(cleanup_old_sessions_removes_exactly sampleStore 10000 (by decide)).1,
    (cleanup_old_sessions_removes_exactly sampleStore 10000 (by decide)).2.2.2⟩

/-- C9 counterexample: at a concrete store where exactly one session is old
enough to be removed, the sweep removes it and prints the count, but its
return value is still `none` — the removed count is printed to stdout, not
returned to the caller. -/
theorem cleanup_old_sessions_no_return_cex :
    (cleanup_old_sessions sampleStore 10000).sessions = [("b", sampleB)] ∧
    (cleanup_old_sessions sampleStore 10000).printed = ["Cleaned up 1 old sessions"] ∧
    (cleanup_old_sessions sampleStore 10000).retval ≠ some 1 := by
  refine ⟨by decide, by decide, by decide⟩

/-- C9 (amended): `cleanup_old_sessions` does not return the removed count:
its body has no return statement, so the caller always receives None.  The
count is only reported by printing a summary line, and only when at least one
session was removed — a sweep removing nothing prints nothing. -/
theorem cleanup_old_sessions_prints_count (store : Store) (now : Int) :
    (cleanup_old_sessions store now).retval = none ∧
    (cleanup_old_sessions store now).printed
        = (if (store.filter (fun p => decide (now - p.2.created_at > 7200))).length = 0
           then []
           else ["Cleaned up "
               ++ toString (store.filter
                    (fun p => decide (now - p.2.created_at > 7200))).length
               ++ " old sessions"]) := by
  refine ⟨rfl, ?_⟩
  simp only [cleanup_old_sessions]
  by_cases hf : store.filter (fun p => decide (now - p.2.created_at > 7200)) = []
  · simp [hf]
  · have hne : (store.filter
        (fun p => decide (now - p.2.created_at > 7200))).map Prod.fst ≠ [] := by
      simpa using hf
    have hlen : (store.filter
        (fun p => decide (now - p.2.created_at > 7200))).length ≠ 0 := by
      simpa [List.length_eq_zero] using hf
    rw [if_neg hne, if_neg hlen, List.length_map]

theorem subEmphF_id (d : Char) (n : Nat) (l : List Char)
    (hd : d ∉ l) (hn : l.length ≤ n) : subEmphF d n l = l := by
  induction n generalizing l with
  | zero =>
    cases l with
    | nil => rfl
    | cons c t => simp at hn
  | succ n ih =>
    cases l with
    | nil => rfl
    | cons c t =>
      have hcd : ¬ c = d := fun h => hd (by rw [← h]; exact List.mem_cons_self c t)
      have hdt : d ∉ t := fun hmem => hd (List.mem_cons_of_mem c hmem)
      have hlt : t.length ≤ n := by
        simp only [List.length_cons] at hn
        omega
      simp only [subEmphF, if_neg hcd]
      rw [ih t hdt hlt]

theorem subLinkF_id (n : Nat) (l : List Char)
    (hd : '[' ∉ l) (hn : l.length ≤ n) : subLinkF n l = l := by
  induction n generalizing l with
  | zero =>
    cases l with
    | nil => rfl
    | cons c t => simp at hn
  | succ n ih =>
    cases l with
    | nil => rfl
    | cons c t =>
      have hcd : ¬ c = '[' := fun h => hd (by rw [← h]; exact List.mem_cons_self c t)
      have hdt : '[' ∉ t := fun hmem => hd (List.mem_cons_of_mem c hmem)
      have hlt : t.length ≤ n := by
        simp only [List.length_cons] at hn
        omega
      simp only [subLinkF, if_neg hcd]
      rw [ih t hdt hlt]

theorem subCodeF_id (n : Nat) (l : List Char)
    (hd : backquote ∉ l) (hn : l.length ≤ n) : subCodeF n l = l := by
  induction n generalizing l with
  | zero =>
    cases l with
    | nil => rfl
    | cons c t => simp at hn
  | succ n ih =>
    cases l with
    | nil => rfl
    | cons c t =>
      have hcd : ¬ c = backquote :=
        fun h => hd (by rw [← h]; exact List.mem_cons_self c t)
      have hdt : backquote ∉ t := fun hmem => hd (List.mem_cons_of_mem c hmem)
      have hlt : t.length ≤ n := by
        simp only [List.length_cons] at hn
        omega
      simp only [subCodeF, if_neg hcd]
      rw [ih t hdt hlt]

theorem splitAux_good (l : List Char) : ∀ acc, (∀ c ∈ acc, pyIsWs c = false) →
    GoodWords (splitAux l acc) := by
  induction l with
  | nil =>
    intro acc hacc
    simp only [splitAux]
    split
    · intro w hw
      simp at hw
    · next hne =>
      intro w hw
      simp only [List.mem_singleton] at hw
      subst hw
      refine ⟨by simpa using hne, ?_⟩
      intro c hc
      exact hacc c (List.mem_reverse.mp hc)
  | cons c t ih =>
    intro acc hacc
    simp only [splitAux]
    by_cases hws : pyIsWs c
    · rw [if_pos hws]
      by_cases hacc0 : acc = []
      · rw [if_pos hacc0]
        exact ih [] (by simp)
      · rw [if_neg hacc0]
        intro w hw
        rcases List.mem_cons.mp hw with h | h
        · subst h
          refine ⟨by simpa using hacc0, ?_⟩
          intro x hx
          exact hacc x (List.mem_reverse.mp hx)
        · exact ih [] (by simp) w h
    · rw [if_neg hws]
      refine ih (c :: acc) ?_
      intro x hx
      rcases List.mem_cons.mp hx with h | h
      · subst h
        simpa using hws
      · exact hacc x h

theorem splitAux_append_word (w : List Char) (r : List Char)
    (hw : ∀ c ∈ w, pyIsWs c = false) :
    ∀ acc, splitAux (w ++ r) acc = splitAux r (w.reverse ++ acc) := by
  induction w with
  | nil => intro acc; simp
  | cons c w2 ih =>
    intro acc
    have hc : pyIsWs c = false := hw c (List.mem_cons_self c w2)
    have hw2 : ∀ x ∈ w2, pyIsWs x = false :=
      fun x hx => hw x (List.mem_cons_of_mem c hx)
    simp only [List.cons_append, splitAux, hc, List.append_eq]
    rw [if_neg (by simp), ih hw2 (c :: acc)]
    simp

theorem pySplit_joinWs (ws : List (List Char)) (h : GoodWords ws) :
    pySplit (joinWs ws) = ws := by
  induction ws with
  | nil => rfl
  | cons w vs ih =>
    cases vs with
    | nil =>
      have hw := h w (List.mem_cons_self w [])
      have hwne : w.reverse ≠ [] := by simpa [List.reverse_eq_nil_iff] using hw.1
      have h1 := splitAux_append_word w [] hw.2 []
      simp only [List.append_nil] at h1
      show splitAux w [] = [w]
      rw [h1]
      simp [splitAux, hwne]
    | cons v vs2 =>
      have hw := h w (List.mem_cons_self w (v :: vs2))
      have hrest : GoodWords (v :: vs2) := fun x hx => h x (List.mem_cons_of_mem w hx)
      have hwne : w.reverse ≠ [] := by simpa [List.reverse_eq_nil_iff] using hw.1
      have hsp : pyIsWs ' ' = true := by decide
      have h1 := splitAux_append_word w (' ' :: joinWs (v :: vs2)) hw.2 []
      simp only [List.append_nil] at h1
      show splitAux (w ++ ' ' :: joinWs (v :: vs2)) [] = w :: v :: vs2
      rw [h1]
      simp only [splitAux, hsp, if_true, if_neg hwne, List.reverse_reverse]
      exact congrArg (w :: ·) (ih hrest)

theorem head?_some_mem (l : List Char) (c : Char) (h : l.head? = some c) : c ∈ l := by
  cases l with
  | nil => simp at h
  | cons a t =>
    simp only [List.head?_cons, Option.some_inj] at h
    rw [← h]
    exact List.mem_cons_self a t

theorem dropWhile_eq_self_of_head (p : Char → Bool) (l : List Char)
    (h : ∀ c, l.head? = some c → p c = false) : l.dropWhile p = l := by
  cases l with
  | nil => rfl
  | cons c t =>
    rw [List.dropWhile_cons, h c rfl]
    simp

theorem joinWs_head_nonWs (ws : List (List Char)) (h : GoodWords ws) :
    ∀ c, (joinWs ws).head? = some c → pyIsWs c = false := by
  cases ws with
  | nil =>
    intro c hc
    simp [joinWs] at hc
  | cons w vs =>
    have hw := h w (List.mem_cons_self w vs)
    cases vs with
    | nil =>
      intro c hc
      exact hw.2 c (head?_some_mem w c hc)
    | cons v vs2 =>
      intro c hc
      have hj : joinWs (w :: v :: vs2) = w ++ ' ' :: joinWs (v :: vs2) := rfl
      rw [hj, List.head?_append] at hc
      cases w with
      | nil => exact absurd rfl hw.1
      | cons a w2 =>
        simp only [List.head?_cons, Option.or_some, Option.some_inj] at hc
        rw [← hc]
        exact hw.2 a (List.mem_cons_self a w2)

theorem joinWs_ne_nil (v : List Char) (vs2 : List (List Char))
    (h : GoodWords (v :: vs2)) : joinWs (v :: vs2) ≠ [] := by
  cases vs2 with
  | nil =>
    show v ≠ []
    exact (h v (List.mem_cons_self v [])).1
  | cons x rest =>
    show v ++ ' ' :: joinWs (x :: rest) ≠ []
    simp

theorem joinWs_reverse_head_nonWs (ws : List (List Char)) (h : GoodWords ws) :
    ∀ c, (joinWs ws).reverse.head? = some c → pyIsWs c = false := by
  induction ws with
  | nil =>
    intro c hc
    simp [joinWs] at hc
  | cons w vs ih =>
    have hw := h w (List.mem_cons_self w vs)
    cases vs with
    | nil =>
      intro c hc
      exact hw.2 c (List.mem_reverse.mp (head?_some_mem _ c hc))
    | cons v vs2 =>
      intro c hc
      have hrest : GoodWords (v :: vs2) := fun x hx => h x (List.mem_cons_of_mem w hx)
      have hJ : joinWs (v :: vs2) ≠ [] := joinWs_ne_nil v vs2 hrest
      have hj : joinWs (w :: v :: vs2) = w ++ ' ' :: joinWs (v :: vs2) := rfl
      rw [hj, List.reverse_append, List.reverse_cons] at hc
      rcases hrev : (joinWs (v :: vs2)).reverse with _ | ⟨d, tl⟩
      · exact absurd (List.reverse_eq_nil_iff.mp hrev) hJ
      · rw [hrev] at hc
        simp only [List.cons_append, List.head?_cons, Option.some_inj] at hc
        refine ih hrest c ?_
        rw [hrev, List.head?_cons, hc]

theorem pyStripL_joinWs (ws : List (List Char)) (h : GoodWords ws) :
    pyStripL (joinWs ws) = joinWs ws := by
  show (((joinWs ws).dropWhile pyIsWs).reverse.dropWhile pyIsWs).reverse = joinWs ws
  rw [dropWhile_eq_self_of_head pyIsWs _ (joinWs_head_nonWs ws h),
    dropWhile_eq_self_of_head pyIsWs _ (joinWs_reverse_head_nonWs ws h),
    List.reverse_reverse]

theorem mem_joinWs (c : Char) (ws : List (List Char)) (h : c ∈ joinWs ws) :
    (∃ w ∈ ws, c ∈ w) ∨ c = ' ' := by
  induction ws with
  | nil => simp [joinWs] at h
  | cons w vs ih =>
    cases vs with
    | nil =>
      left
      exact ⟨w, List.mem_cons_self w [], h⟩
    | cons v vs2 =>
      have hj : joinWs (w :: v :: vs2) = w ++ ' ' :: joinWs (v :: vs2) := rfl
      rw [hj] at h
      rcases List.mem_append.mp h with h1 | h2
      · left
        exact ⟨w, List.mem_cons_self w (v :: vs2), h1⟩
      · rcases List.mem_cons.mp h2 with h3 | h4
        · right
          exact h3
        · rcases ih h4 with ⟨w2, hw2, hc2⟩ | hsp
          · left
            exact ⟨w2, List.mem_cons_of_mem w hw2, hc2⟩
          · right
            exact hsp

theorem mem_splitAux (l : List Char) :
    ∀ acc w c, w ∈ splitAux l acc → c ∈ w → c ∈ l ∨ c ∈ acc := by
  induction l with
  | nil =>
    intro acc w c hw hc
    simp only [splitAux] at hw
    split at hw
    · simp at hw
    · simp only [List.mem_singleton] at hw
      subst hw
      right
      exact List.mem_reverse.mp hc
  | cons a t ih =>
    intro acc w c hw hc
    simp only [splitAux] at hw
    by_cases hws : pyIsWs a
    · rw [if_pos hws] at hw
      by_cases hacc : acc = []
      · rw [if_pos hacc] at hw
        rcases ih [] w c hw hc with h | h
        · exact Or.inl (List.mem_cons_of_mem a h)
        · simp at h
      · rw [if_neg hacc] at hw
        rcases List.mem_cons.mp hw with h | h
        · subst h
          right
          exact List.mem_reverse.mp hc
        · rcases ih [] w c h hc with h2 | h2
          · exact Or.inl (List.mem_cons_of_mem a h2)
          · simp at h2
    · rw [if_neg hws] at hw
      rcases ih (a :: acc) w c hw hc with h | h
      · exact Or.inl (List.mem_cons_of_mem a h)
      · rcases List.mem_cons.mp h with h2 | h2
        · exact Or.inl (by rw [h2]; exact List.mem_cons_self a t)
        · exact Or.inr h2

theorem mem_collapseWs (c : Char) (l : List Char) (h : c ∈ collapseWs l) :
    c ∈ l ∨ c = ' ' := by
  rcases mem_joinWs c (pySplit l) h with ⟨w, hw, hc⟩ | hsp
  · rcases mem_splitAux l [] w c hw hc with h1 | h1
    · exact Or.inl h1
    · simp at h1
  · exact Or.inr hsp

theorem collapseWs_idem (l : List Char) : collapseWs (collapseWs l) = collapseWs l := by
  show joinWs (pySplit (joinWs (pySplit l))) = joinWs (pySplit l)
  rw [pySplit_joinWs (pySplit l) (splitAux_good l [] (by simp))]

theorem cleanTextL_no_markers (l : List Char)
    (h1 : '*' ∉ l) (h2 : '_' ∉ l) (h3 : '[' ∉ l) (h4 : backquote ∉ l)
    (h5 : (collapseWs l).length ≤ 500) :
    cleanTextL l = collapseWs l := by
  have e1 : subEmph '*' l = l := subEmphF_id '*' l.length l h1 (Nat.le_refl _)
  have e2 : subEmph '_' l = l := subEmphF_id '_' l.length l h2 (Nat.le_refl _)
  have e3 : subLink l = l := subLinkF_id l.length l h3 (Nat.le_refl _)
  have e4 : subCode l = l := subCodeF_id l.length l h4 (Nat.le_refl _)
  have e6 : truncate500 (collapseWs l) = collapseWs l := by
    simp only [truncate500]
    rw [if_neg (by omega)]
  simp only [cleanTextL, e1, e2, e3, e4, e6]
  show pyStripL (joinWs (pySplit l)) = collapseWs l
  rw [pyStripL_joinWs (pySplit l) (splitAux_good l [] (by simp))]
  rfl

/-- C8 counterexample: `clean_text` is not idempotent, and not because of
the 500-character truncation boundary (the strings involved are five
characters long).  On the input star, a, newline, b, star the emphasis
pattern cannot match across the newline, so the first cleaning only
collapses the newline to a space; the second cleaning then sees a star pair
on one line and strips it. -/
theorem clean_text_not_idempotent_cex :
    clean_text "*a\nb*" = "*a b*" ∧
    clean_text (clean_text "*a\nb*") = "a b" ∧
    clean_text (clean_text "*a\nb*") ≠ clean_text "*a\nb*" := by
  refine ⟨by decide, by decide, by decide⟩

/-- C8 (amended): `clean_text` is not idempotent in general — removing or
rewriting markdown markers can create new matchable patterns (whitespace
collapsing can join a newline-separated emphasis pair, and code-span removal
can splice a link back together) that only a second application removes.  It
is idempotent on inputs free of the four marker characters (star,
underscore, opening bracket, backquote) whose collapsed form stays within
the 500-character truncation limit. -/
theorem clean_text_idempotent_no_markers (s : String)
    (h1 : '*' ∉ s.data) (h2 : '_' ∉ s.data) (h3 : '[' ∉ s.data)
    (h4 : backquote ∉ s.data)
    (h5 : (collapseWs s.data).length ≤ 500) :
    clean_text (clean_text s) = clean_text s := by
  have hy : cleanTextL s.data = collapseWs s.data :=
    cleanTextL_no_markers s.data h1 h2 h3 h4 h5
  have hstar : ('*' : Char) ≠ ' ' := by decide
  have hund : ('_' : Char) ≠ ' ' := by decide
  have hbra : ('[' : Char) ≠ ' ' := by decide
  have hbq : backquote ≠ ' ' := by decide
  have g1 : '*' ∉ collapseWs s.data :=
    fun hin => (mem_collapseWs _ _ hin).elim (fun hh => h1 hh) hstar
  have g2 : '_' ∉ collapseWs s.data :=
    fun hin => (mem_collapseWs _ _ hin).elim (fun hh => h2 hh) hund
  have g3 : '[' ∉ collapseWs s.data :=
    fun hin => (mem_collapseWs _ _ hin).elim (fun hh => h3 hh) hbra
  have g4 : backquote ∉ collapseWs s.data :=
    fun hin => (mem_collapseWs _ _ hin).elim (fun hh => h4 hh) hbq
  have g5 : (collapseWs (collapseWs s.data)).length ≤ 500 := by
    rw [collapseWs_idem]
    exact h5
  have hy2 : cleanTextL (collapseWs s.data) = collapseWs (collapseWs s.data) :=
    cleanTextL_no_markers _ g1 g2 g3 g4 g5
  have hkey : cleanTextL (cleanTextL s.data) = cleanTextL s.data := by
    rw [hy, hy2, collapseWs_idem]
  exact congrArg String.mk hkey

/-- Witness for C8 (amended): a marker-free text with irregular whitespace
is cleaned idempotently. -/
theorem clean_text_idempotent_no_markers_witness :
    clean_text (clean_text "Hola!  Como \t estas?") = clean_text "Hola!  Como \t estas?" :=
  clean_text_idempotent_no_markers "Hola!  Como \t estas?" (by decide) (by decide)
    (by decide) (by decide) (by decide)
